import Mathlib

/-!
Verification of the reconciliation engine of create-varset.py.

The Python source manages a "global priority" variable set per organization:
it diffs a desired variable list against the current remote list
(check_diffs_variables_in_varset), locates the managed varset
(get_global_priority_varset_id), lists organizations with pagination
(list_orgs), and routes every request through a retrying session
(get_requests_session_with_retries).  The definitions below are a shallow
embedding of those functions; Python dicts with optional fields become
structures with Option fields, and a KeyError is modeled by an aborted
result (the Bool component of the returned pair is false).
-/

/-- One entry of the desired variable list (an element of varset_vars loaded
from YAML).  Every attribute other than the key may be absent. -/
structure DesiredVar where
  key : String
  value : Option String := none
  description : Option String := none
  sensitive : Option Bool := none
  category : Option String := none
  hcl : Option Bool := none
deriving DecidableEq, Repr

/-- The attribute dictionary of a variable as returned by the varset API.
The key is mandatory (the code indexes var["attributes"]["key"]); the other
attributes are read with dict.get and may be absent.  In particular the API
never returns the value of a sensitive variable, so value may be none. -/
structure CurrentAttrs where
  key : String
  value : Option String := none
  description : Option String := none
  sensitive : Option Bool := none
  category : Option String := none
  hcl : Option Bool := none
deriving DecidableEq, Repr

/-- One variable of the current remote list: a server id plus attributes. -/
structure CurrentVar where
  id : String
  attributes : CurrentAttrs
deriving DecidableEq, Repr

/-- One reconciliation action of check_diffs_variables_in_varset, identified
by the variable key it targets.  add/update/delete correspond to calls of
add_variable/update_variable/delete_variable; skip is the "No updates found"
branch that only logs and records a skipped report row. -/
inductive VarAction where
  | add (key : String)
  | update (key : String)
  | skip (key : String)
  | delete (key : String)
deriving DecidableEq, Repr

/-- The needs_update comparison of check_diffs_variables_in_varset
(lines 343-349).  The first comparison reads desired["value"] WITHOUT a
default, so an absent desired value raises KeyError: that is modeled by
returning none.  The current side reads current_attrs.get("value") whose
default is None, so an absent current value compares unequal to every
desired string.  The other four attributes are read with defaults on both
sides ("" / False / "terraform" / False). -/
def needsUpdate (desired : DesiredVar) (cur : CurrentAttrs) : Option Bool :=
  match desired.value with
  | none => none
  | some v =>
      some (decide (some v ≠ cur.value) ||
            decide (desired.description.getD "" ≠ cur.description.getD "") ||
            decide (desired.sensitive.getD false ≠ cur.sensitive.getD false) ||
            decide (desired.category.getD "terraform" ≠ cur.category.getD "terraform") ||
            decide (desired.hcl.getD false ≠ cur.hcl.getD false))

/-- Lookup in current_dict = {var["attributes"]["key"]: var for var in
current_vars}.  A Python dict comprehension keeps the LAST variable for a
duplicated key, hence the search over the reversed list. -/
def currentLookup (C : List CurrentVar) (k : String) : Option CurrentVar :=
  C.reverse.find? (fun v => v.attributes.key == k)

/-- Membership test in desired_dict = {var["key"]: var for var in varset_vars}
(only membership of a key is ever asked of desired_dict). -/
def desiredHasKey (D : List DesiredVar) (k : String) : Bool :=
  D.any (fun d => d.key == k)

/-- The key sequence of current_dict.items(): first-occurrence order with
duplicates removed, as for a Python dict built by comprehension. -/
def dedupKeys (seen : List String) : List String → List String
  | [] => []
  | k :: rest =>
      if seen.contains k then dedupKeys seen rest
      else k :: dedupKeys (k :: seen) rest

/-- Keys of current_dict in iteration order. -/
def dictKeys (C : List CurrentVar) : List String :=
  dedupKeys [] (C.map (fun v => v.attributes.key))

/-- The trailing loop of check_diffs_variables_in_varset (lines 358-360):
delete every current key that is not in the desired dict. -/
def deletesOf (D : List DesiredVar) (C : List CurrentVar) : List VarAction :=
  (dictKeys C).filterMap
    (fun k => if desiredHasKey D k then none else some (VarAction.delete k))

/-- The main loop of check_diffs_variables_in_varset over the desired list
(lines 333-355): add a missing key, otherwise update or skip according to
needsUpdate.  The Bool is false when the comparison raised KeyError (absent
desired value); in that case the loop stops and the remaining desired
entries produce no actions. -/
def runDesired (C : List CurrentVar) : List DesiredVar → List VarAction × Bool
  | [] => ([], true)
  | d :: rest =>
      match currentLookup C d.key with
      | none =>
          let r := runDesired C rest
          (VarAction.add d.key :: r.1, r.2)
      | some c =>
          match needsUpdate d c.attributes with
          | none => ([], false)
          | some true =>
              let r := runDesired C rest
              (VarAction.update d.key :: r.1, r.2)
          | some false =>
              let r := runDesired C rest
              (VarAction.skip c.attributes.key :: r.1, r.2)

/-- check_diffs_variables_in_varset (lines 328-360): the desired loop
followed, when no KeyError aborted it, by the deletion loop.  Returns the
issued actions in execution order and whether the function ran to
completion. -/
def check_diffs_variables_in_varset (D : List DesiredVar) (C : List CurrentVar) :
    List VarAction × Bool :=
  let r := runDesired C D
  if r.2 then (r.1 ++ deletesOf D C, true) else (r.1, false)

/-- The action sequence issued by one reconciliation run. -/
def reconcilePlan (D : List DesiredVar) (C : List CurrentVar) : List VarAction :=
  (check_diffs_variables_in_varset D C).1

/-- The action the desired loop takes for a single desired entry when no
KeyError occurs (specification-side summary of one loop iteration). -/
def actOf (C : List CurrentVar) (d : DesiredVar) : VarAction :=
  match currentLookup C d.key with
  | none => VarAction.add d.key
  | some c =>
      if needsUpdate d c.attributes = some true then VarAction.update d.key
      else VarAction.skip c.attributes.key

/-- Whether the compared attributes of key k differ between the desired and
the current list (the update-needed test of the claims). -/
def attrsDiffer (D : List DesiredVar) (C : List CurrentVar) (k : String) : Bool :=
  match D.find? (fun d => d.key == k), currentLookup C k with
  | some d, some c => needsUpdate d c.attributes == some true
  | _, _ => false

example : reconcilePlan [{ key := "a", value := some "1" }] [] = [VarAction.add "a"] := by decide
example :
    reconcilePlan [] [{ id := "v1", attributes := { key := "b" } }] = [VarAction.delete "b"] := by
  decide
example : (check_diffs_variables_in_varset [{ key := "a" }]
    [{ id := "v1", attributes := { key := "a" } }]).2 = false := by decide

/-! ## Remote state after one run (environment model for the idempotence claim) -/

/-- The attribute payload that add_variable (lines 209-221) and
update_variable (lines 293-305) send for a desired entry: every optional
field is filled with its default via dict.get. -/
def payloadAttrs (d : DesiredVar) : CurrentAttrs :=
  { key := d.key
    value := some (d.value.getD "")
    description := some (d.description.getD "")
    sensitive := some (d.sensitive.getD false)
    category := some (d.category.getD "terraform")
    hcl := some (d.hcl.getD false) }

/-- Models the remote API read-back described by the spec: the stored
attributes are returned as posted, except that the value of a sensitive
variable is never returned. -/
def readBack (a : CurrentAttrs) : CurrentAttrs :=
  if a.sensitive = some true then { a with value := none } else a

/-- The remote variable corresponding to one desired entry after a run in
which every issued action succeeded: an added or updated variable stores the
posted payload (read back through readBack), a skipped variable is
unchanged.  Models the API contract stated by the spec ("no external change
between the runs" and the sensitive-value read-back restriction). -/
def applyEntry (C : List CurrentVar) (d : DesiredVar) : CurrentVar :=
  match currentLookup C d.key with
  | none => { id := "new-" ++ d.key, attributes := readBack (payloadAttrs d) }
  | some c =>
      match needsUpdate d c.attributes with
      | some true => { id := c.id, attributes := readBack (payloadAttrs d) }
      | _ => c

/-- The current remote list a second run would fetch after a first
successful run: one variable per desired entry (keys absent from the
desired list have been deleted by the first run). -/
def applyPlan (D : List DesiredVar) (C : List CurrentVar) : List CurrentVar :=
  D.map (applyEntry C)

/-! ## Configuration-set locator (get_global_priority_varset_id) -/

/-- One varset as listed by GET organizations/{org}/varsets: an id plus the
attributes the locator inspects, each read with dict.get (absent means
None). -/
structure Varset where
  id : String
  name : Option String := none
  glob : Option Bool := none
  priority : Option Bool := none
deriving DecidableEq, Repr

/-- The match predicate of line 386: attrs.get("name") == varset_name and
attrs.get("global") and attrs.get("priority") (Python truthiness: an absent
or false flag fails the test). -/
def varsetMatches (target : String) (v : Varset) : Bool :=
  v.name == some target && v.glob == some true && v.priority == some true

/-- One page of the varset listing: the data array and whether
links.next is present (truthy). -/
structure VarsetPage where
  data : List Varset
  hasNext : Bool
deriving DecidableEq, Repr

/-- The locator's view of one page request: a parsed page, or a
requests.exceptions.RequestException (after the session's retries). -/
inductive PageResp where
  | ok (page : VarsetPage)
  | exc
deriving DecidableEq, Repr

/-- get_global_priority_varset_id (lines 371-398).  The argument list is the
sequence of responses the server gives to page 1, 2, ...; the result is the
varset id found (none after exhausting pages or on a request failure) paired
with the number of page requests made.  The loop returns the first matching
varset of a page immediately, stops when a page has no next link, and stops
on a request exception. -/
def get_global_priority_varset_id (target : String) : List PageResp → Option String × Nat
  | [] => (none, 0)
  | PageResp.exc :: _ => (none, 1)
  | PageResp.ok pg :: rest =>
      match pg.data.find? (varsetMatches target) with
      | some v => (some v.id, 1)
      | none =>
          if pg.hasNext then
            let o := get_global_priority_varset_id target rest
            (o.1, o.2 + 1)
          else (none, 1)

/-! ## Organization lister (list_orgs) -/

/-- One response of the paginated organization listing: the ids of the page
and whether links.next is present, or a request failure (which
list_orgs turns into a break, keeping what was accumulated). -/
inductive OrgPageResp where
  | ok (orgs : List String) (hasNext : Bool)
  | exc
deriving DecidableEq, Repr

/-- list_orgs (lines 122-154).  The argument is the sequence of responses to
page 1, 2, ...; the result is the accumulated id list and the number of page
requests.  The loop breaks on an empty page, after a page with no next
link, and on a request exception. -/
def list_orgs : List OrgPageResp → List String × Nat
  | [] => ([], 0)
  | OrgPageResp.exc :: _ => ([], 1)
  | OrgPageResp.ok orgs hasNext :: rest =>
      if orgs.isEmpty then ([], 1)
      else if hasNext then
        let o := list_orgs rest
        (orgs ++ o.1, o.2 + 1)
      else (orgs, 1)

/-- A faithful paginated server for a nonempty collection: pages of size P in
order, the next link present exactly while items remain. -/
def serverPages (P : Nat) (items : List String) : List OrgPageResp :=
  if h : P = 0 ∨ items = [] then []
  else OrgPageResp.ok (items.take P) (items.drop P ≠ []) :: serverPages P (items.drop P)
termination_by items.length
decreasing_by
  push_neg at h
  have hlen : 0 < items.length := List.length_pos.mpr h.2
  simp only [List.length_drop]
  omega

/-- The full server model: an empty collection is served as a single empty
page (the server answers page 1 regardless), a nonempty one via
serverPages. -/
def serverEnv (P : Nat) (items : List String) : List OrgPageResp :=
  if items.isEmpty then [OrgPageResp.ok [] false] else serverPages P items

/-! ## Retrying session (get_requests_session_with_retries) -/

/-- The urllib3 Retry configuration built by get_requests_session_with_retries
(lines 426-439) with the source's default arguments. -/
structure RetryPolicy where
  total : Nat
  read : Nat
  connect : Nat
  backoff_factor : Nat
  status_forcelist : List Nat
  raise_on_status : Bool
deriving DecidableEq, Repr

/-- The retry policy of the module-level session (line 442): retries=6,
backoff_factor=2, status_forcelist=(429, 500, 502, 503, 504),
raise_on_status=False. -/
def get_requests_session_with_retries : RetryPolicy :=
  { total := 6
    read := 6
    connect := 6
    backoff_factor := 2
    status_forcelist := [429, 500, 502, 503, 504]
    raise_on_status := false }

/-- Models the documented urllib3 Retry loop for status-based retries:
total counts RETRIES, so the initial request is not counted against it; a
response whose status is in the forcelist is retried while retries remain;
once they are exhausted (or on a non-forcelist status) the response itself
is returned because raise_on_status is False.  The argument list is the
status of the response each successive attempt would receive; the result is
the number of requests actually sent and the status finally delivered to
the caller. -/
def runRetry (fl : List Nat) : Nat → List Nat → Nat × Option Nat
  | _, [] => (0, none)
  | retriesLeft, s :: rest =>
      if s ∈ fl then
        match retriesLeft with
        | 0 => (1, some s)
        | r + 1 =>
            let o := runRetry fl r rest
            (o.1 + 1, o.2)
      else (1, some s)

example :
    (runRetry get_requests_session_with_retries.status_forcelist
      get_requests_session_with_retries.total (List.replicate 10 503)).1 = 7 := by decide
example : (get_global_priority_varset_id "gp"
    [PageResp.ok { data := [{ id := "vs1", name := some "gp", glob := some true,
                              priority := some true }], hasNext := false }]) =
    (some "vs1", 1) := by decide
example : list_orgs (serverEnv 2 ["a", "b", "c"]) = (["a", "b", "c"], 2) := by
  rw [serverEnv]; rw [serverPages]; rw [serverPages]; rw [serverPages]
  simp [list_orgs]
example : list_orgs (serverEnv 2 []) = ([], 1) := by decide

/-! ## Request/report traces of the per-organization operations -/

/-- The observable effects of one organization's processing: HTTP requests
(get / postVarset / postVar / patchVar / delVar / delVarset), report rows
appended by log_report (report, with the action and status columns), and
logger output (log). -/
inductive Ev where
  | get
  | postVarset
  | postVar (key : String)
  | patchVar (key : String)
  | delVar (key : String)
  | delVarset
  | report (action : String) (status : String)
  | log
deriving DecidableEq, Repr

/-- Whether an event is a mutating HTTP request (POST, PATCH or DELETE). -/
def Ev.isMutation : Ev → Bool
  | Ev.postVarset => true
  | Ev.postVar _ => true
  | Ev.patchVar _ => true
  | Ev.delVar _ => true
  | Ev.delVarset => true
  | _ => false

/-- Whether an event is a report row appended by log_report. -/
def Ev.isReport : Ev → Bool
  | Ev.report _ _ => true
  | _ => false

/-- Whether an event is an add_variable POST. -/
def Ev.isPostVar : Ev → Bool
  | Ev.postVar _ => true
  | _ => false

/-- The response one variable-level request receives: a status code, or a
requests.exceptions.RequestException surfaced after the session's retries
(raise_for_status errors included, since HTTPError is caught by the same
except clause). -/
inductive VarResp where
  | ok (status : Nat)
  | exc
deriving DecidableEq, Repr

/-- The response of the POST creating the varset: 201 with the new id, 422
with errors[0].detail, any other status, or a request exception. -/
inductive CreateResp where
  | created (id : String)
  | invalid (detail : String)
  | other (status : Nat)
  | exc
deriving DecidableEq, Repr

/-- The remote environment one organization's processing runs against. -/
structure OrgEnv where
  pages : List PageResp
  varsResp : Option (List CurrentVar)
  createResp : CreateResp
  addR : String → VarResp
  updR : String → VarResp
  delR : String → VarResp
  delVarsetR : VarResp

/-- add_variable (lines 207-241): under dry run it only logs; otherwise it
POSTs and appends exactly one report row, success on 201 and error on any
other status or exception. -/
def add_variable (dry : Bool) (resp : VarResp) (k : String) : List Ev :=
  if dry then [Ev.log]
  else
    Ev.postVar k ::
      match resp with
      | VarResp.ok s =>
          if s = 201 then [Ev.log, Ev.report "add_variable" "success"]
          else [Ev.log, Ev.report "add_variable" "error"]
      | VarResp.exc => [Ev.log, Ev.report "add_variable" "error"]

/-- update_variable (lines 291-326): under dry run it only logs; otherwise
it PATCHes and appends exactly one report row, success on 200 and error
otherwise (any status at least 400 raises in raise_for_status and lands in
the same error report). -/
def update_variable (dry : Bool) (resp : VarResp) (k : String) : List Ev :=
  if dry then [Ev.log]
  else
    Ev.patchVar k ::
      match resp with
      | VarResp.ok s =>
          if s = 200 then [Ev.log, Ev.report "update_variable" "success"]
          else [Ev.log, Ev.report "update_variable" "error"]
      | VarResp.exc => [Ev.log, Ev.report "update_variable" "error"]

/-- delete_variable (lines 270-289): under dry run it only logs; otherwise
it DELETEs and appends exactly one report row, success on 204 and error
otherwise. -/
def delete_variable (dry : Bool) (resp : VarResp) (k : String) : List Ev :=
  if dry then [Ev.log]
  else
    Ev.delVar k ::
      match resp with
      | VarResp.ok s =>
          if s = 204 then [Ev.log, Ev.report "delete_variable" "success"]
          else [Ev.log, Ev.report "delete_variable" "error"]
      | VarResp.exc => [Ev.log, Ev.report "delete_variable" "error"]

/-- The effects of one reconciliation action.  The skip branch (lines
353-355) logs and appends its skipped report row unconditionally: it does
not consult dry_run. -/
def varActionTrace (env : OrgEnv) (dry : Bool) : VarAction → List Ev
  | VarAction.add k => add_variable dry (env.addR k) k
  | VarAction.update k => update_variable dry (env.updR k) k
  | VarAction.skip _ => [Ev.log, Ev.report "update_variable" "skipped"]
  | VarAction.delete k => delete_variable dry (env.delR k) k

/-- Effects of a sequence of reconciliation actions, in execution order. -/
def traceAll (env : OrgEnv) (dry : Bool) : List VarAction → List Ev
  | [] => []
  | a :: rest => varActionTrace env dry a ++ traceAll env dry rest

/-- The effect trace of check_diffs_variables_in_varset: one GET for
get_variables_in_varset (lines 401-409, returning [] on a request failure)
followed by the effects of the computed actions. -/
def check_diffs_trace (env : OrgEnv) (dry : Bool) (D : List DesiredVar) : List Ev :=
  Ev.get :: traceAll env dry (reconcilePlan D (env.varsResp.getD []))

/-- create_global_priority_varset (lines 157-204).  Under dry run it probes
the locator and only logs.  Live, it POSTs the varset; on 201 it records
success and adds every desired variable; on a 422 whose detail is "Name has
already been taken" it records skipped; on any other 422 detail, any other
status, or a request exception it records error and adds nothing. -/
def create_global_priority_varset (target : String) (env : OrgEnv) (dry : Bool)
    (D : List DesiredVar) : List Ev :=
  if dry then
    let r := get_global_priority_varset_id target env.pages
    List.replicate r.2 Ev.get ++
      match r.1 with
      | some _ => [Ev.log]
      | none => Ev.log :: D.map (fun _ => Ev.log)
  else
    Ev.postVarset ::
      match env.createResp with
      | CreateResp.created _ =>
          Ev.log :: Ev.report "create_varset" "success" ::
            traceAll env false (D.map (fun d => VarAction.add d.key))
      | CreateResp.invalid detail =>
          if detail = "Name has already been taken" then
            [Ev.log, Ev.report "create_varset" "skipped"]
          else [Ev.log, Ev.report "create_varset" "error"]
      | CreateResp.other _ => [Ev.log, Ev.report "create_varset" "error"]
      | CreateResp.exc => [Ev.log, Ev.report "create_varset" "error"]

/-- update_global_priority_varset (lines 362-368): locate the varset; when
none is found, log and append an error report row (this happens BEFORE any
dry-run check); otherwise reconcile. -/
def update_global_priority_varset (target : String) (env : OrgEnv) (dry : Bool)
    (D : List DesiredVar) : List Ev :=
  let r := get_global_priority_varset_id target env.pages
  List.replicate r.2 Ev.get ++
    match r.1 with
    | none => [Ev.log, Ev.report "update_varset" "error"]
    | some _ => check_diffs_trace env dry D

/-- delete_global_priority_varset (lines 243-268): locate the varset; when
none is found, log and append an error report row (again before the dry-run
check); under dry run it then only logs; live it DELETEs the varset and
appends one report row (success on 204, error otherwise, the error rows
using the action name "delete_variable" as in the source). -/
def delete_global_priority_varset (target : String) (env : OrgEnv) (dry : Bool) : List Ev :=
  let r := get_global_priority_varset_id target env.pages
  List.replicate r.2 Ev.get ++
    match r.1 with
    | none => [Ev.log, Ev.report "delete_varset" "error"]
    | some _ =>
        if dry then [Ev.log]
        else
          Ev.delVarset ::
            match env.delVarsetR with
            | VarResp.ok s =>
                if s = 204 then [Ev.log, Ev.report "delete_varset" "success"]
                else [Ev.log, Ev.report "delete_variable" "error"]
            | VarResp.exc => [Ev.log, Ev.report "delete_variable" "error"]

/-- The operation mode selected by --mode. -/
inductive Mode where
  | create
  | update
  | delete
deriving DecidableEq, Repr

/-- process_org (lines 411-422): dispatch one organization to the operation
selected by the mode. -/
def process_org (target : String) (env : OrgEnv) (mode : Mode) (dry : Bool)
    (D : List DesiredVar) : List Ev :=
  Ev.log ::
    match mode with
    | Mode.create => create_global_priority_varset target env dry D
    | Mode.update => update_global_priority_varset target env dry D
    | Mode.delete => delete_global_priority_varset target env dry

/-! ## Lemmas about the reconciler -/

theorem currentLookup_eq_none_iff (C : List CurrentVar) (k : String) :
    currentLookup C k = none ↔ k ∉ C.map (fun v => v.attributes.key) := by
  simp [currentLookup, List.find?_eq_none, List.mem_reverse, List.mem_map]

theorem currentLookup_key {C : List CurrentVar} {k : String} {c : CurrentVar}
    (h : currentLookup C k = some c) : c.attributes.key = k ∧ c ∈ C := by
  have h1 := List.find?_some h
  have h2 := List.mem_of_find?_eq_some h
  simp only [beq_iff_eq] at h1
  exact ⟨h1, List.mem_reverse.mp h2⟩

theorem find?_proj_unique {α : Type} (f : α → String) {l : List α}
    (hl : (l.map f).Nodup) {x : α} (hx : x ∈ l) :
    l.find? (fun y => f y == f x) = some x := by
  induction l with
  | nil => cases hx
  | cons u rest ih =>
      rw [List.map_cons, List.nodup_cons] at hl
      rcases List.mem_cons.mp hx with h | h
      · subst h
        simp [List.find?_cons]
      · have hne : f u ≠ f x := by
          intro he
          exact hl.1 (he ▸ List.mem_map_of_mem f h)
        have : (f u == f x) = false := beq_eq_false_iff_ne.mpr hne
        simp [List.find?_cons, this]
        exact ih hl.2 h

theorem currentLookup_mem_nodup {C : List CurrentVar}
    (hC : (C.map (fun v => v.attributes.key)).Nodup) {c : CurrentVar} (hc : c ∈ C) :
    currentLookup C c.attributes.key = some c := by
  unfold currentLookup
  have hrev : (C.reverse.map (fun v => v.attributes.key)).Nodup := by
    rw [List.map_reverse]
    exact List.nodup_reverse.mpr hC
  exact find?_proj_unique (fun v => v.attributes.key) hrev (List.mem_reverse.mpr hc)

theorem needsUpdate_none_iff (d : DesiredVar) (c : CurrentAttrs) :
    needsUpdate d c = none ↔ d.value = none := by
  cases hv : d.value <;> simp [needsUpdate, hv]

theorem needsUpdate_isSome {d : DesiredVar} (c : CurrentAttrs) (h : d.value.isSome) :
    (needsUpdate d c).isSome := by
  cases hv : d.value
  · rw [hv] at h; cases h
  · simp [needsUpdate, hv]

theorem runDesired_eq_map (C : List CurrentVar) (D : List DesiredVar)
    (hv : ∀ d ∈ D, (currentLookup C d.key).isSome → d.value.isSome) :
    runDesired C D = (D.map (actOf C), true) := by
  induction D with
  | nil => rfl
  | cons d rest ih =>
      have hrest : ∀ d2 ∈ rest, (currentLookup C d2.key).isSome → d2.value.isSome :=
        fun d2 h2 => hv d2 (List.mem_cons_of_mem d h2)
      cases hl : currentLookup C d.key with
      | none => simp [runDesired, hl, ih hrest, actOf]
      | some c =>
          have hval : d.value.isSome := hv d (List.mem_cons_self d rest) (by simp [hl])
          have hnu := needsUpdate_isSome (d := d) c.attributes hval
          cases hb : needsUpdate d c.attributes with
          | none => rw [hb] at hnu; cases hnu
          | some b => cases b <;> simp [runDesired, hl, hb, ih hrest, actOf]

theorem runDesired_true_isSome {C : List CurrentVar} {D : List DesiredVar}
    (h : (runDesired C D).2 = true) :
    ∀ d ∈ D, (currentLookup C d.key).isSome → d.value.isSome := by
  induction D with
  | nil => intro d hd; cases hd
  | cons d rest ih =>
      intro d2 hd2 hlk
      cases hl : currentLookup C d.key with
      | none =>
          simp only [runDesired, hl] at h
          rcases List.mem_cons.mp hd2 with he | he
          · subst he; rw [hl] at hlk; cases hlk
          · exact ih h d2 he hlk
      | some c =>
          cases hb : needsUpdate d c.attributes with
          | none => simp [runDesired, hl, hb] at h
          | some b =>
              have hrest : (runDesired C rest).2 = true := by
                cases b <;> simpa [runDesired, hl, hb] using h
              rcases List.mem_cons.mp hd2 with he | he
              · subst he
                rw [← Option.ne_none_iff_isSome]
                intro hn
                rw [(needsUpdate_none_iff d2 c.attributes).mpr hn] at hb
                cases hb
              · exact ih hrest d2 he hlk

theorem check_diffs_completes_iff {D : List DesiredVar} {C : List CurrentVar} :
    (check_diffs_variables_in_varset D C).2 = true ↔ (runDesired C D).2 = true := by
  unfold check_diffs_variables_in_varset
  cases h : (runDesired C D).2 <;> simp [h]

theorem reconcilePlan_eq (D : List DesiredVar) (C : List CurrentVar)
    (hv : ∀ d ∈ D, (currentLookup C d.key).isSome → d.value.isSome) :
    reconcilePlan D C = D.map (actOf C) ++ deletesOf D C := by
  have h := runDesired_eq_map C D hv
  simp [reconcilePlan, check_diffs_variables_in_varset, h]

theorem check_diffs_completes (D : List DesiredVar) (C : List CurrentVar)
    (hv : ∀ d ∈ D, (currentLookup C d.key).isSome → d.value.isSome) :
    (check_diffs_variables_in_varset D C).2 = true := by
  rw [check_diffs_completes_iff, runDesired_eq_map C D hv]

theorem mem_dedupKeys {k : String} : ∀ {seen l : List String},
    k ∈ dedupKeys seen l ↔ k ∈ l ∧ k ∉ seen := by
  intro seen l
  induction l generalizing seen with
  | nil => simp [dedupKeys]
  | cons a rest ih =>
      by_cases ha : seen.contains a
      · have hmem : a ∈ seen := by
          simpa using ha
        rw [dedupKeys, if_pos ha, ih]
        constructor
        · rintro ⟨h1, h2⟩
          exact ⟨List.mem_cons_of_mem a h1, h2⟩
        · rintro ⟨h1, h2⟩
          rcases List.mem_cons.mp h1 with he | he
          · exact absurd (he ▸ hmem) h2
          · exact ⟨he, h2⟩
      · have hmem : a ∉ seen := by
          simpa using ha
        rw [dedupKeys, if_neg ha]
        constructor
        · intro h
          rcases List.mem_cons.mp h with he | he
          · exact ⟨he ▸ List.mem_cons_self a rest, he ▸ hmem⟩
          · rcases ih.mp he with ⟨h1, h2⟩
            simp at h2
            exact ⟨List.mem_cons_of_mem a h1, h2.2⟩
        · rintro ⟨h1, h2⟩
          rcases List.mem_cons.mp h1 with he | he
          · exact he ▸ List.mem_cons_self a _
          · by_cases hk : k = a
            · exact hk ▸ List.mem_cons_self a _
            · exact List.mem_cons_of_mem a (ih.mpr ⟨he, by simp [hk, h2]⟩)

theorem mem_dictKeys {C : List CurrentVar} {k : String} :
    k ∈ dictKeys C ↔ k ∈ C.map (fun v => v.attributes.key) := by
  rw [dictKeys, mem_dedupKeys]
  simp

theorem desiredHasKey_iff {D : List DesiredVar} {k : String} :
    desiredHasKey D k = true ↔ k ∈ D.map DesiredVar.key := by
  simp [desiredHasKey, List.any_eq_true, List.mem_map]

theorem mem_deletesOf {D : List DesiredVar} {C : List CurrentVar} {k : String} :
    VarAction.delete k ∈ deletesOf D C ↔
      k ∈ C.map (fun v => v.attributes.key) ∧ desiredHasKey D k = false := by
  rw [deletesOf]
  simp only [List.mem_filterMap]
  constructor
  · rintro ⟨a, ha, hif⟩
    by_cases h : desiredHasKey D a
    · simp [h] at hif
    · simp only [if_neg h] at hif
      have : a = k := by
        injection (Option.some.inj hif)
      subst this
      exact ⟨mem_dictKeys.mp ha, by simpa using h⟩
  · rintro ⟨h1, h2⟩
    refine ⟨k, mem_dictKeys.mpr h1, ?_⟩
    simp [h2]

theorem deletesOf_only_delete {D : List DesiredVar} {C : List CurrentVar} {a : VarAction}
    (ha : a ∈ deletesOf D C) : ∃ k, a = VarAction.delete k := by
  rw [deletesOf] at ha
  rcases List.mem_filterMap.mp ha with ⟨x, _, hif⟩
  by_cases h : desiredHasKey D x
  · simp [h] at hif
  · simp only [if_neg h] at hif
    exact ⟨x, (Option.some.inj hif).symm⟩

theorem deletesOf_eq_nil {D : List DesiredVar} {C : List CurrentVar}
    (h : ∀ k ∈ C.map (fun v => v.attributes.key), desiredHasKey D k = true) :
    deletesOf D C = [] := by
  rw [deletesOf, List.filterMap_eq_nil_iff]
  intro a ha
  rw [if_pos (h a (mem_dictKeys.mp ha))]

theorem actOf_eq_add_iff {C : List CurrentVar} {d : DesiredVar} {k : String} :
    actOf C d = VarAction.add k ↔ d.key = k ∧ currentLookup C d.key = none := by
  unfold actOf
  cases hl : currentLookup C d.key with
  | none => simp
  | some c => by_cases hb : needsUpdate d c.attributes = some true <;> simp [hb]

theorem actOf_eq_update_iff {C : List CurrentVar} {d : DesiredVar} {k : String} :
    actOf C d = VarAction.update k ↔
      d.key = k ∧ ∃ c, currentLookup C d.key = some c ∧ needsUpdate d c.attributes = some true := by
  unfold actOf
  cases hl : currentLookup C d.key with
  | none => simp
  | some c =>
      by_cases hb : needsUpdate d c.attributes = some true <;> simp [hb]

theorem actOf_eq_skip_iff {C : List CurrentVar} {d : DesiredVar} {k : String} :
    actOf C d = VarAction.skip k ↔
      d.key = k ∧ ∃ c, currentLookup C d.key = some c ∧ needsUpdate d c.attributes ≠ some true := by
  unfold actOf
  cases hl : currentLookup C d.key with
  | none => simp
  | some c =>
      have hk := (currentLookup_key hl).1
      by_cases hb : needsUpdate d c.attributes = some true <;> simp [hb, hk]

theorem actOf_ne_delete {C : List CurrentVar} {d : DesiredVar} {k : String} :
    actOf C d ≠ VarAction.delete k := by
  unfold actOf
  cases hl : currentLookup C d.key with
  | none => simp
  | some c => by_cases hb : needsUpdate d c.attributes = some true <;> simp [hb]

theorem add_mem_plan_iff {D : List DesiredVar} {C : List CurrentVar} {k : String}
    (hv : ∀ d ∈ D, (currentLookup C d.key).isSome → d.value.isSome) :
    VarAction.add k ∈ reconcilePlan D C ↔
      k ∈ D.map DesiredVar.key ∧ k ∉ C.map (fun v => v.attributes.key) := by
  rw [reconcilePlan_eq D C hv, List.mem_append]
  constructor
  · rintro (h | h)
    · rcases List.mem_map.mp h with ⟨d, hd, he⟩
      rcases actOf_eq_add_iff.mp he with ⟨hk, hl⟩
      subst hk
      exact ⟨List.mem_map_of_mem DesiredVar.key hd, (currentLookup_eq_none_iff C d.key).mp hl⟩
    · rcases deletesOf_only_delete h with ⟨k2, hk2⟩
      cases hk2
  · rintro ⟨h1, h2⟩
    rcases List.mem_map.mp h1 with ⟨d, hd, he⟩
    subst he
    left
    refine List.mem_map.mpr ⟨d, hd, ?_⟩
    exact actOf_eq_add_iff.mpr ⟨rfl, (currentLookup_eq_none_iff C d.key).mpr h2⟩

theorem delete_mem_plan_iff {D : List DesiredVar} {C : List CurrentVar} {k : String}
    (hv : ∀ d ∈ D, (currentLookup C d.key).isSome → d.value.isSome) :
    VarAction.delete k ∈ reconcilePlan D C ↔
      k ∈ C.map (fun v => v.attributes.key) ∧ k ∉ D.map DesiredVar.key := by
  rw [reconcilePlan_eq D C hv, List.mem_append]
  constructor
  · rintro (h | h)
    · rcases List.mem_map.mp h with ⟨d, _, he⟩
      exact absurd he actOf_ne_delete
    · rcases mem_deletesOf.mp h with ⟨h1, h2⟩
      refine ⟨h1, fun hmem => ?_⟩
      rw [desiredHasKey_iff.mpr hmem] at h2
      cases h2
  · rintro ⟨h1, h2⟩
    right
    refine mem_deletesOf.mpr ⟨h1, ?_⟩
    cases hd : desiredHasKey D k
    · rfl
    · exact absurd (desiredHasKey_iff.mp hd) h2

theorem update_mem_plan_iff {D : List DesiredVar} {C : List CurrentVar} {k : String}
    (hD : (D.map DesiredVar.key).Nodup)
    (hv : ∀ d ∈ D, (currentLookup C d.key).isSome → d.value.isSome) :
    VarAction.update k ∈ reconcilePlan D C ↔
      (k ∈ D.map DesiredVar.key ∧ k ∈ C.map (fun v => v.attributes.key)) ∧
        attrsDiffer D C k = true := by
  rw [reconcilePlan_eq D C hv, List.mem_append]
  constructor
  · rintro (h | h)
    · rcases List.mem_map.mp h with ⟨d, hd, he⟩
      rcases actOf_eq_update_iff.mp he with ⟨hk, c, hl, hb⟩
      subst hk
      have hfind : D.find? (fun y => DesiredVar.key y == d.key) = some d :=
        find?_proj_unique DesiredVar.key hD hd
      refine ⟨⟨List.mem_map_of_mem DesiredVar.key hd,
        List.mem_map.mpr ⟨c, (currentLookup_key hl).2, (currentLookup_key hl).1⟩⟩, ?_⟩
      rw [attrsDiffer, hfind, hl]
      simp [hb]
    · rcases deletesOf_only_delete h with ⟨k2, hk2⟩
      cases hk2
  · rintro ⟨⟨h1, _⟩, h3⟩
    left
    rw [attrsDiffer] at h3
    rcases hf : D.find? (fun d => d.key == k) with _ | d
    · rw [hf] at h3; cases h3
    · rcases hl : currentLookup C k with _ | c
      · rw [hf, hl] at h3; cases h3
      · rw [hf, hl] at h3
        have hb : needsUpdate d c.attributes = some true := by
          simpa using h3
        have hd : d ∈ D := List.mem_of_find?_eq_some hf
        have hk : d.key = k := by
          have := List.find?_some hf
          simpa using this
        refine List.mem_map.mpr ⟨d, hd, ?_⟩
        exact actOf_eq_update_iff.mpr ⟨hk, c, hk ▸ hl, hb⟩

theorem skip_mem_plan_iff {D : List DesiredVar} {C : List CurrentVar} {k : String}
    (hD : (D.map DesiredVar.key).Nodup)
    (hv : ∀ d ∈ D, (currentLookup C d.key).isSome → d.value.isSome) :
    VarAction.skip k ∈ reconcilePlan D C ↔
      (k ∈ D.map DesiredVar.key ∧ k ∈ C.map (fun v => v.attributes.key)) ∧
        attrsDiffer D C k = false := by
  rw [reconcilePlan_eq D C hv, List.mem_append]
  constructor
  · rintro (h | h)
    · rcases List.mem_map.mp h with ⟨d, hd, he⟩
      rcases actOf_eq_skip_iff.mp he with ⟨hk, c, hl, hb⟩
      subst hk
      have hfind : D.find? (fun y => DesiredVar.key y == d.key) = some d :=
        find?_proj_unique DesiredVar.key hD hd
      refine ⟨⟨List.mem_map_of_mem DesiredVar.key hd,
        List.mem_map.mpr ⟨c, (currentLookup_key hl).2, (currentLookup_key hl).1⟩⟩, ?_⟩
      rw [attrsDiffer, hfind, hl]
      simpa using hb
    · rcases deletesOf_only_delete h with ⟨k2, hk2⟩
      cases hk2
  · rintro ⟨⟨h1, h2⟩, h3⟩
    left
    rcases List.mem_map.mp h1 with ⟨d, hd, he⟩
    subst he
    have hfind : D.find? (fun y => DesiredVar.key y == d.key) = some d :=
      find?_proj_unique DesiredVar.key hD hd
    rcases hl : currentLookup C d.key with _ | c
    · exact absurd h2 ((currentLookup_eq_none_iff C d.key).mp hl)
    · rw [attrsDiffer, hfind, hl] at h3
      have hb : needsUpdate d c.attributes ≠ some true := by
        simpa using h3
      refine List.mem_map.mpr ⟨d, hd, ?_⟩
      exact actOf_eq_skip_iff.mpr ⟨rfl, c, hl, hb⟩

theorem runDesired_no_delete {C : List CurrentVar} {D : List DesiredVar} :
    ∀ a ∈ (runDesired C D).1, ∀ k, a ≠ VarAction.delete k := by
  induction D with
  | nil => intro a ha; cases ha
  | cons d rest ih =>
      intro a ha k
      cases hl : currentLookup C d.key with
      | none =>
          simp only [runDesired, hl] at ha
          rcases List.mem_cons.mp ha with he | he
          · subst he; intro h; cases h
          · exact ih a he k
      | some c =>
          cases hb : needsUpdate d c.attributes with
          | none =>
              simp only [runDesired, hl, hb] at ha
              cases ha
          | some b =>
              cases b <;> simp only [runDesired, hl, hb] at ha <;>
                rcases List.mem_cons.mp ha with he | he
              · subst he; intro h; cases h
              · exact ih a he k
              · subst he; intro h; cases h
              · exact ih a he k

/-- Claim C9 (confirmed): within one reconciliation, every add and update
action is issued before any delete action: the plan computed by
check_diffs_variables_in_varset splits into a delete-free prefix (the
desired loop) followed by a deletes-only suffix (the deletion loop), for
every desired and current list. -/
theorem claim_C9_adds_updates_before_deletes (D : List DesiredVar) (C : List CurrentVar) :
    ∃ pre post,
      reconcilePlan D C = pre ++ post ∧
        (∀ a ∈ pre, ∀ k, a ≠ VarAction.delete k) ∧
        (∀ a ∈ post, ∃ k, a = VarAction.delete k) := by
  cases h : (runDesired C D).2 with
  | true =>
      refine ⟨(runDesired C D).1, deletesOf D C, ?_, ?_, ?_⟩
      · simp [reconcilePlan, check_diffs_variables_in_varset, h]
      · exact runDesired_no_delete
      · exact fun a ha => deletesOf_only_delete ha
  | false =>
      refine ⟨(runDesired C D).1, [], ?_, ?_, ?_⟩
      · simp [reconcilePlan, check_diffs_variables_in_varset, h]
      · exact runDesired_no_delete
      · intro a ha; cases ha

/-- A desired entry whose compared attributes agree with c1Current. -/
def c1Desired : DesiredVar :=
  { key := "a", value := some "1", description := some "", sensitive := some false,
    category := some "terraform", hcl := some false }

/-- A current variable with the same key and attributes as c1Desired. -/
def c1Current : CurrentVar :=
  { id := "var-1"
    attributes :=
      { key := "a"
        value := some "1"
        description := some ""
        sensitive := some false
        category := some "terraform"
        hcl := some false } }

/-- Claim C1, counterexample: for D = [c1Desired] and C = [c1Current] (both
keyed by the unique key "a", compared attributes equal) the reconciliation
issues no add, no update and no delete action, yet "a" lies in
D.keys ∪ C.keys.  The three key sets of the claim are therefore not a
partition of D.keys ∪ C.keys: in-both keys whose attributes agree are only
reported skipped and are covered by none of the three sets. -/
theorem claim_C1_counterexample :
    VarAction.add "a" ∉ reconcilePlan [c1Desired] [c1Current] ∧
      VarAction.update "a" ∉ reconcilePlan [c1Desired] [c1Current] ∧
      VarAction.delete "a" ∉ reconcilePlan [c1Desired] [c1Current] ∧
      "a" ∈ [c1Desired].map DesiredVar.key := by decide

/-- Claim C1 (corrected): for desired and current lists with unique keys,
provided every desired entry whose key is also current carries a value
(otherwise the comparison raises KeyError and aborts the run, see C2), the
plan issues an add exactly for the keys in D.keys minus C.keys, a delete
exactly for the keys in C.keys minus D.keys, an update exactly for the
in-both keys whose compared attributes differ, and a skipped report exactly
for the remaining in-both keys; add, delete and update are pairwise
disjoint, and together with the skipped keys they cover D.keys ∪ C.keys
exactly (the claim's partition statement holds only once the skipped keys
are added). -/
theorem claim_C1_plan_characterization (D : List DesiredVar) (C : List CurrentVar)
    (hD : (D.map DesiredVar.key).Nodup)
    (hC : (C.map (fun v => v.attributes.key)).Nodup)
    (hv : ∀ d ∈ D, (currentLookup C d.key).isSome → d.value.isSome) :
    (∀ k, VarAction.add k ∈ reconcilePlan D C ↔
        k ∈ D.map DesiredVar.key ∧ k ∉ C.map (fun v => v.attributes.key)) ∧
    (∀ k, VarAction.delete k ∈ reconcilePlan D C ↔
        k ∈ C.map (fun v => v.attributes.key) ∧ k ∉ D.map DesiredVar.key) ∧
    (∀ k, VarAction.update k ∈ reconcilePlan D C ↔
        (k ∈ D.map DesiredVar.key ∧ k ∈ C.map (fun v => v.attributes.key)) ∧
          attrsDiffer D C k = true) ∧
    (∀ k, VarAction.skip k ∈ reconcilePlan D C ↔
        (k ∈ D.map DesiredVar.key ∧ k ∈ C.map (fun v => v.attributes.key)) ∧
          attrsDiffer D C k = false) ∧
    (∀ k, ¬(VarAction.add k ∈ reconcilePlan D C ∧ VarAction.delete k ∈ reconcilePlan D C)) ∧
    (∀ k, ¬(VarAction.add k ∈ reconcilePlan D C ∧ VarAction.update k ∈ reconcilePlan D C)) ∧
    (∀ k, ¬(VarAction.delete k ∈ reconcilePlan D C ∧ VarAction.update k ∈ reconcilePlan D C)) ∧
    (∀ k, (k ∈ D.map DesiredVar.key ∨ k ∈ C.map (fun v => v.attributes.key)) ↔
        (VarAction.add k ∈ reconcilePlan D C ∨ VarAction.delete k ∈ reconcilePlan D C ∨
          VarAction.update k ∈ reconcilePlan D C ∨ VarAction.skip k ∈ reconcilePlan D C)) := by
  have hAdd := fun k => add_mem_plan_iff (D := D) (C := C) (k := k) hv
  have hDel := fun k => delete_mem_plan_iff (D := D) (C := C) (k := k) hv
  have hUpd := fun k => update_mem_plan_iff (D := D) (C := C) (k := k) hD hv
  have hSkp := fun k => skip_mem_plan_iff (D := D) (C := C) (k := k) hD hv
  refine ⟨hAdd, hDel, hUpd, hSkp, ?_, ?_, ?_, ?_⟩
  · rintro k ⟨h1, h2⟩
    exact ((hAdd k).mp h1).2 ((hDel k).mp h2).1
  · rintro k ⟨h1, h2⟩
    exact ((hAdd k).mp h1).2 ((hUpd k).mp h2).1.2
  · rintro k ⟨h1, h2⟩
    exact ((hDel k).mp h1).2 ((hUpd k).mp h2).1.1
  · intro k
    constructor
    · intro hk
      by_cases hkD : k ∈ D.map DesiredVar.key
      · by_cases hkC : k ∈ C.map (fun v => v.attributes.key)
        · cases hdiff : attrsDiffer D C k
          · right; right; right
            exact (hSkp k).mpr ⟨⟨hkD, hkC⟩, hdiff⟩
          · right; right; left
            exact (hUpd k).mpr ⟨⟨hkD, hkC⟩, hdiff⟩
        · left
          exact (hAdd k).mpr ⟨hkD, hkC⟩
      · rcases hk with h | h
        · exact absurd h hkD
        · right; left
          exact (hDel k).mpr ⟨h, hkD⟩
    · rintro (h | h | h | h)
      · exact Or.inl ((hAdd k).mp h).1
      · exact Or.inr ((hDel k).mp h).1
      · exact Or.inl ((hUpd k).mp h).1.1
      · exact Or.inl ((hSkp k).mp h).1.1

/-- A desired entry absent from the current list (to be added). -/
def c1AddDesired : DesiredVar := { key := "n", value := some "2" }

/-- A current variable absent from the desired list (to be deleted). -/
def c1DelCurrent : CurrentVar :=
  { id := "var-2", attributes := { key := "g", value := some "3" } }

/-- Witness for the corrected C1 at D = [c1AddDesired], C = [c1DelCurrent]:
the hypotheses hold and the characterization yields the add of "n" and the
delete of "g". -/
theorem claim_C1_witness :
    VarAction.add "n" ∈ reconcilePlan [c1AddDesired] [c1DelCurrent] ∧
      VarAction.delete "g" ∈ reconcilePlan [c1AddDesired] [c1DelCurrent] := by
  have h := claim_C1_plan_characterization [c1AddDesired] [c1DelCurrent]
    (by decide) (by decide) (by decide)
  exact ⟨(h.1 "n").mpr (by decide), (h.2.1 "g").mpr (by decide)⟩

/-- A desired entry that omits its value field. -/
def c2NoValue : DesiredVar := { key := "a" }

/-- The same desired entry with the value set to the explicit default "". -/
def c2EmptyValue : DesiredVar := { key := "a", value := some "" }

/-- Current attributes agreeing with every default, value present. -/
def c2CurEmpty : CurrentAttrs :=
  { key := "a"
    value := some ""
    description := some ""
    sensitive := some false
    category := some "terraform"
    hcl := some false }

/-- Current attributes whose value is absent (as returned for a sensitive
variable). -/
def c2CurNoValue : CurrentAttrs := { key := "a" }

/-- A current variable carrying c2CurEmpty. -/
def c2CurrentVar : CurrentVar := { id := "var-3", attributes := c2CurEmpty }

/-- Claim C2, counterexample: the comparison does fail on an absent value
field (needsUpdate raises KeyError, the run aborts), a desired entry
omitting value is NOT treated identically to one setting the explicit
default "" (the latter completes), and on the current side an absent value
is not filled with "" but compares unequal to the desired empty string. -/
theorem claim_C2_counterexample :
    needsUpdate c2NoValue c2CurEmpty = none ∧
      (check_diffs_variables_in_varset [c2NoValue] [c2CurrentVar]).2 = false ∧
      (check_diffs_variables_in_varset [c2EmptyValue] [c2CurrentVar]).2 = true ∧
      needsUpdate c2EmptyValue c2CurNoValue = some true := by decide

/-- Claim C2 (corrected): the update-needed comparison does compare all five
attributes, and for description, sensitive, category and hcl an absent
field is equivalent to its explicit default on either side ("" / false /
"terraform" / false).  The value attribute, however, is special: the
desired side is read without a default, so an absent desired value makes
the comparison fail (KeyError, modeled as none), and the current side
defaults to None rather than "", so an absent current value makes the
comparison report a difference against every desired value. -/
theorem claim_C2_default_fill (d : DesiredVar) (c : CurrentAttrs) :
    needsUpdate { d with description := none } c =
        needsUpdate { d with description := some "" } c ∧
      needsUpdate { d with sensitive := none } c =
        needsUpdate { d with sensitive := some false } c ∧
      needsUpdate { d with category := none } c =
        needsUpdate { d with category := some "terraform" } c ∧
      needsUpdate { d with hcl := none } c =
        needsUpdate { d with hcl := some false } c ∧
      needsUpdate d { c with description := none } =
        needsUpdate d { c with description := some "" } ∧
      needsUpdate d { c with sensitive := none } =
        needsUpdate d { c with sensitive := some false } ∧
      needsUpdate d { c with category := none } =
        needsUpdate d { c with category := some "terraform" } ∧
      needsUpdate d { c with hcl := none } =
        needsUpdate d { c with hcl := some false } ∧
      (d.value = none → needsUpdate d c = none) ∧
      (∀ v, d.value = some v → c.value = none → needsUpdate d c = some true) := by
  refine ⟨?_, ?_, ?_, ?_, ?_, ?_, ?_, ?_, ?_, ?_⟩
  all_goals cases hv : d.value <;> simp [needsUpdate, hv]
  intro hc
  simp [hc]

/-- Witness for the corrected C2 at concrete inputs: an absent desired value
makes the comparison fail, and an absent current value forces an update
report against the desired empty string. -/
theorem claim_C2_witness :
    needsUpdate c2NoValue c2CurEmpty = none ∧
      needsUpdate c2EmptyValue c2CurNoValue = some true := by
  refine ⟨(claim_C2_default_fill c2NoValue c2CurEmpty).2.2.2.2.2.2.2.2.1 (by decide), ?_⟩
  exact (claim_C2_default_fill c2EmptyValue c2CurNoValue).2.2.2.2.2.2.2.2.2 ""
    (by decide) (by decide)

theorem attrsDiffer_at {D : List DesiredVar} {C : List CurrentVar} {d : DesiredVar}
    {c : CurrentVar} (hD : (D.map DesiredVar.key).Nodup) (hd : d ∈ D)
    (hlook : currentLookup C d.key = some c) :
    attrsDiffer D C d.key = (needsUpdate d c.attributes == some true) := by
  rw [attrsDiffer, find?_proj_unique DesiredVar.key hD hd, hlook]

/-- Claim C10 (confirmed): for a key present in both lists whose current
value attribute is absent (as for sensitive variables, whose values the API
never returns) and whose desired value is a string, needsUpdate always
reports a difference, so every reconciliation run that completes issues an
update action for that key and never reports it skipped.  The hypotheses
ask for unique desired keys and for the run to complete (a run aborts only
on an absent desired value, see C2). -/
theorem claim_C10_absent_value_always_updates
    (D : List DesiredVar) (C : List CurrentVar) (d : DesiredVar) (c : CurrentVar) (v : String)
    (hD : (D.map DesiredVar.key).Nodup)
    (hd : d ∈ D)
    (hrun : (check_diffs_variables_in_varset D C).2 = true)
    (hlook : currentLookup C d.key = some c)
    (hcv : c.attributes.value = none)
    (hdv : d.value = some v) :
    needsUpdate d c.attributes = some true ∧
      VarAction.update d.key ∈ reconcilePlan D C ∧
      VarAction.skip d.key ∉ reconcilePlan D C := by
  have hv := runDesired_true_isSome (check_diffs_completes_iff.mp hrun)
  have hnu : needsUpdate d c.attributes = some true := by
    simp [needsUpdate, hdv, hcv]
  have hdiff : attrsDiffer D C d.key = true := by
    rw [attrsDiffer_at hD hd hlook, hnu]
    rfl
  have hkD : d.key ∈ D.map DesiredVar.key := List.mem_map_of_mem DesiredVar.key hd
  have hkC : d.key ∈ C.map (fun w => w.attributes.key) :=
    List.mem_map.mpr ⟨c, (currentLookup_key hlook).2, (currentLookup_key hlook).1⟩
  refine ⟨hnu, ?_, ?_⟩
  · exact (update_mem_plan_iff hD hv).mpr ⟨⟨hkD, hkC⟩, hdiff⟩
  · intro hskip
    have h3 := ((skip_mem_plan_iff hD hv).mp hskip).2
    rw [hdiff] at h3
    cases h3

/-- A desired sensitive entry with a value. -/
def c10Desired : DesiredVar := { key := "a", value := some "x", sensitive := some true }

/-- The corresponding current variable: sensitive, value never returned. -/
def c10Current : CurrentVar :=
  { id := "var-4", attributes := { key := "a", sensitive := some true } }

/-- Witness for C10 at D = [c10Desired], C = [c10Current]: the hypotheses
hold and the theorem yields the perpetual update. -/
theorem claim_C10_witness :
    needsUpdate c10Desired c10Current.attributes = some true ∧
      VarAction.update c10Desired.key ∈ reconcilePlan [c10Desired] [c10Current] ∧
      VarAction.skip c10Desired.key ∉ reconcilePlan [c10Desired] [c10Current] :=
  claim_C10_absent_value_always_updates [c10Desired] [c10Current] c10Desired c10Current "x"
    (by decide) (by decide) (by decide) (by decide) (by decide) (by decide)

/-! ## Lemmas about the second-run state -/

theorem readBack_key (a : CurrentAttrs) : (readBack a).key = a.key := by
  rw [readBack]
  split <;> rfl

theorem applyEntry_eq_new {C : List CurrentVar} {d : DesiredVar}
    (hl : currentLookup C d.key = none) :
    applyEntry C d = { id := "new-" ++ d.key, attributes := readBack (payloadAttrs d) } := by
  simp [applyEntry, hl]

theorem applyEntry_eq_upd {C : List CurrentVar} {d : DesiredVar} {c : CurrentVar}
    (hl : currentLookup C d.key = some c) (hb : needsUpdate d c.attributes = some true) :
    applyEntry C d = { id := c.id, attributes := readBack (payloadAttrs d) } := by
  simp [applyEntry, hl, hb]

theorem applyEntry_eq_keep {C : List CurrentVar} {d : DesiredVar} {c : CurrentVar}
    (hl : currentLookup C d.key = some c) (hb : needsUpdate d c.attributes = some false) :
    applyEntry C d = c := by
  simp [applyEntry, hl, hb]

theorem applyEntry_eq_keepNone {C : List CurrentVar} {d : DesiredVar} {c : CurrentVar}
    (hl : currentLookup C d.key = some c) (hb : needsUpdate d c.attributes = none) :
    applyEntry C d = c := by
  simp [applyEntry, hl, hb]

theorem applyEntry_key (C : List CurrentVar) (d : DesiredVar) :
    (applyEntry C d).attributes.key = d.key := by
  cases hl : currentLookup C d.key with
  | none =>
      rw [applyEntry_eq_new hl]
      show (readBack (payloadAttrs d)).key = d.key
      rw [readBack_key]
      rfl
  | some c =>
      cases hb : needsUpdate d c.attributes with
      | none =>
          rw [applyEntry_eq_keepNone hl hb]
          exact (currentLookup_key hl).1
      | some b =>
          cases b
          · rw [applyEntry_eq_keep hl hb]
            exact (currentLookup_key hl).1
          · rw [applyEntry_eq_upd hl hb]
            show (readBack (payloadAttrs d)).key = d.key
            rw [readBack_key]
            rfl

theorem applyPlan_keys (D : List DesiredVar) (C : List CurrentVar) :
    (applyPlan D C).map (fun v => v.attributes.key) = D.map DesiredVar.key := by
  rw [applyPlan, List.map_map]
  exact List.map_congr_left (fun d _ => applyEntry_key C d)

theorem applyPlan_lookup {D : List DesiredVar} (C : List CurrentVar)
    (hD : (D.map DesiredVar.key).Nodup) {d : DesiredVar} (hd : d ∈ D) :
    currentLookup (applyPlan D C) d.key = some (applyEntry C d) := by
  have hnod : ((applyPlan D C).map (fun v => v.attributes.key)).Nodup := by
    rw [applyPlan_keys]
    exact hD
  have hmem : applyEntry C d ∈ applyPlan D C := List.mem_map_of_mem (applyEntry C) hd
  have h := currentLookup_mem_nodup hnod hmem
  rw [applyEntry_key] at h
  exact h

theorem needsUpdate_readBack_payload {d : DesiredVar} {v : String} (hdv : d.value = some v) :
    needsUpdate d (readBack (payloadAttrs d)) = some (d.sensitive.getD false) := by
  cases hs : d.sensitive.getD false
  · have hns : (payloadAttrs d).sensitive ≠ some true := by
      simp [payloadAttrs, hs]
    rw [readBack, if_neg hns]
    simp [needsUpdate, payloadAttrs, hdv, hs]
  · have hys : (payloadAttrs d).sensitive = some true := by
      simp [payloadAttrs, hs]
    rw [readBack, if_pos hys]
    simp [needsUpdate, payloadAttrs, hdv, hs]

theorem needsUpdate_applyEntry_true {C : List CurrentVar} {d : DesiredVar} {v : String}
    (hdv : d.value = some v)
    (h : needsUpdate d (applyEntry C d).attributes = some true) :
    d.sensitive.getD false = true := by
  cases hl : currentLookup C d.key with
  | none =>
      rw [applyEntry_eq_new hl] at h
      simp only [needsUpdate_readBack_payload hdv] at h
      exact Option.some.inj h
  | some c =>
      cases hb : needsUpdate d c.attributes with
      | none =>
          have hsome := needsUpdate_isSome (d := d) c.attributes (by simp [hdv])
          rw [hb] at hsome
          cases hsome
      | some b =>
          cases b
          · rw [applyEntry_eq_keep hl hb] at h
            simp [hb] at h
          · rw [applyEntry_eq_upd hl hb] at h
            simp only [needsUpdate_readBack_payload hdv] at h
            exact Option.some.inj h

theorem needsUpdate_applyEntry_false {C : List CurrentVar} {d : DesiredVar} {v : String}
    (hdv : d.value = some v) (hs : d.sensitive.getD false = false) :
    needsUpdate d (applyEntry C d).attributes = some false := by
  cases hl : currentLookup C d.key with
  | none =>
      rw [applyEntry_eq_new hl]
      simp only [needsUpdate_readBack_payload hdv, hs]
  | some c =>
      cases hb : needsUpdate d c.attributes with
      | none =>
          have hsome := needsUpdate_isSome (d := d) c.attributes (by simp [hdv])
          rw [hb] at hsome
          cases hsome
      | some b =>
          cases b
          · rw [applyEntry_eq_keep hl hb]
            exact hb
          · rw [applyEntry_eq_upd hl hb]
            simp only [needsUpdate_readBack_payload hdv, hs]

/-- A desired entry that omits its value (optional with default "" per the
configuration contract). -/
def c3NoValue : DesiredVar := { key := "a" }

/-- Claim C3, counterexample: with D = [c3NoValue] (a single non-sensitive
entry without a value field) and an empty current list, the first run
completes and adds "a", but the second run on the unchanged remote state
aborts with KeyError at the comparison and reports nothing: the in-both
non-sensitive key "a" is not reported skipped on the second run. -/
theorem claim_C3_counterexample :
    (check_diffs_variables_in_varset [c3NoValue] []).2 = true ∧
      reconcilePlan [c3NoValue] [] = [VarAction.add "a"] ∧
      (check_diffs_variables_in_varset [c3NoValue] (applyPlan [c3NoValue] [])).2 = false ∧
      VarAction.skip "a" ∉ reconcilePlan [c3NoValue] (applyPlan [c3NoValue] []) ∧
      c3NoValue.sensitive.getD false = false := by decide

/-- Claim C3 (corrected): running the reconciliation a second time on the
state left by a successful first run (applyPlan, which stores each posted
payload and hides sensitive values on read-back) issues no add and no
delete action; every update action of the second run targets a sensitive
desired entry, and every non-sensitive desired entry is reported skipped.
The hypotheses require unique desired keys and a value on every desired
entry: an entry without a value makes the second run abort with KeyError
instead (see the counterexample), since after the first run its key is
always current. -/
theorem claim_C3_second_run_idempotent (D : List DesiredVar) (C : List CurrentVar)
    (hD : (D.map DesiredVar.key).Nodup)
    (hv : ∀ d ∈ D, d.value.isSome) :
    (check_diffs_variables_in_varset D (applyPlan D C)).2 = true ∧
      (∀ k, VarAction.add k ∉ reconcilePlan D (applyPlan D C)) ∧
      (∀ k, VarAction.delete k ∉ reconcilePlan D (applyPlan D C)) ∧
      (∀ k, VarAction.update k ∈ reconcilePlan D (applyPlan D C) →
          ∃ d ∈ D, d.key = k ∧ d.sensitive.getD false = true) ∧
      (∀ d ∈ D, d.sensitive.getD false = false →
          VarAction.skip d.key ∈ reconcilePlan D (applyPlan D C)) := by
  have hv2 : ∀ d ∈ D, (currentLookup (applyPlan D C) d.key).isSome → d.value.isSome :=
    fun d hd _ => hv d hd
  have hkeys : (applyPlan D C).map (fun v => v.attributes.key) = D.map DesiredVar.key :=
    applyPlan_keys D C
  refine ⟨check_diffs_completes D (applyPlan D C) hv2, ?_, ?_, ?_, ?_⟩
  · intro k hmem
    have h := (add_mem_plan_iff hv2).mp hmem
    rw [hkeys] at h
    exact h.2 h.1
  · intro k hmem
    have h := (delete_mem_plan_iff hv2).mp hmem
    rw [hkeys] at h
    exact h.2 h.1
  · intro k hmem
    rw [reconcilePlan_eq D (applyPlan D C) hv2, List.mem_append] at hmem
    rcases hmem with hmem | hmem
    · rcases List.mem_map.mp hmem with ⟨d, hd, he⟩
      rcases actOf_eq_update_iff.mp he with ⟨hk, c2, hl2, hb2⟩
      rcases Option.isSome_iff_exists.mp (hv d hd) with ⟨v, hdv⟩
      rw [applyPlan_lookup C hD hd] at hl2
      have hc2 : c2 = applyEntry C d := (Option.some.inj hl2).symm
      subst hc2
      exact ⟨d, hd, hk, needsUpdate_applyEntry_true hdv hb2⟩
    · rcases deletesOf_only_delete hmem with ⟨k2, hk2⟩
      cases hk2
  · intro d hd hs
    rcases Option.isSome_iff_exists.mp (hv d hd) with ⟨v, hdv⟩
    rw [reconcilePlan_eq D (applyPlan D C) hv2, List.mem_append]
    left
    refine List.mem_map.mpr ⟨d, hd, ?_⟩
    refine actOf_eq_skip_iff.mpr ⟨rfl, applyEntry C d, applyPlan_lookup C hD hd, ?_⟩
    rw [needsUpdate_applyEntry_false hdv hs]
    intro hx
    cases hx

/-- A desired non-sensitive entry with a value, for the C3 witness. -/
def c3Desired : DesiredVar := { key := "b", value := some "1" }

/-- Witness for the corrected C3 at D = [c3Desired], C = []: the second run
completes, adds nothing, and reports the single non-sensitive entry
skipped. -/
theorem claim_C3_witness :
    (check_diffs_variables_in_varset [c3Desired] (applyPlan [c3Desired] [])).2 = true ∧
      VarAction.add "b" ∉ reconcilePlan [c3Desired] (applyPlan [c3Desired] []) ∧
      VarAction.skip c3Desired.key ∈ reconcilePlan [c3Desired] (applyPlan [c3Desired] []) := by
  have h := claim_C3_second_run_idempotent [c3Desired] [] (by decide) (by decide)
  exact ⟨h.1, h.2.1 "b", h.2.2.2.2 c3Desired (by decide) (by decide)⟩

/-! ## Lemmas about the locator -/

/-- All varsets of a page sequence, in listing order. -/
def pagesData : List VarsetPage → List Varset
  | [] => []
  | p :: rest => p.data ++ pagesData rest

theorem find?_of_filter_singleton {α : Type} {p : α → Bool} {l : List α} {v : α}
    (h : l.filter p = [v]) : l.find? p = some v := by
  induction l with
  | nil => simp at h
  | cons a rest ih =>
      by_cases hp : p a
      · rw [List.filter_cons_of_pos hp] at h
        have ha : a = v := by
          injection h
        rw [List.find?_cons_of_pos _ hp, ha]
      · rw [List.filter_cons_of_neg (by simp [hp])] at h
        rw [List.find?_cons_of_neg _ (by simp [hp])]
        exact ih h

theorem find?_of_filter_nil {α : Type} {p : α → Bool} {l : List α}
    (h : l.filter p = []) : l.find? p = none := by
  rw [List.find?_eq_none]
  intro x hx
  exact (List.filter_eq_nil_iff.mp h) x hx

theorem locator_finds {target : String} :
    ∀ (pages : List VarsetPage) (v : Varset),
      (∀ p ∈ pages.dropLast, p.hasNext = true) →
      (pagesData pages).filter (varsetMatches target) = [v] →
      get_global_priority_varset_id target (pages.map PageResp.ok) =
        (some v.id, pages.findIdx (fun p => p.data.any (varsetMatches target)) + 1) := by
  intro pages
  induction pages with
  | nil =>
      intro v _ hf
      simp [pagesData] at hf
  | cons p rest ih =>
      intro v hchain hf
      rw [pagesData, List.filter_append] at hf
      cases hfp : p.data.filter (varsetMatches target) with
      | nil =>
          rw [hfp, List.nil_append] at hf
          have hfind : p.data.find? (varsetMatches target) = none := find?_of_filter_nil hfp
          have hrest_ne : rest ≠ [] := by
            intro he
            rw [he] at hf
            simp [pagesData] at hf
          have hnext : p.hasNext = true := by
            apply hchain
            rw [List.dropLast_cons_of_ne_nil hrest_ne]
            exact List.mem_cons_self p rest.dropLast
          have hchain2 : ∀ q ∈ rest.dropLast, q.hasNext = true := by
            intro q hq
            apply hchain
            rw [List.dropLast_cons_of_ne_nil hrest_ne]
            exact List.mem_cons_of_mem p hq
          have hany : p.data.any (varsetMatches target) = false := by
            rw [List.any_eq_false]
            exact fun x hx => (List.filter_eq_nil_iff.mp hfp) x hx
          rw [List.map_cons, get_global_priority_varset_id, hfind, hnext,
            ih v hchain2 hf, List.findIdx_cons, hany]
          simp
      | cons w ws =>
          rw [hfp] at hf
          have hw : w = v ∧ ws = [] := by
            cases ws with
            | nil =>
                simp at hf
                exact ⟨hf.1, rfl⟩
            | cons x xs =>
                have := congrArg List.length hf
                simp at this
          have hfind : p.data.find? (varsetMatches target) = some v :=
            find?_of_filter_singleton (by rw [hfp, hw.1, hw.2])
          have hany : p.data.any (varsetMatches target) = true := by
            rw [List.any_eq_true]
            have hv : v ∈ p.data.filter (varsetMatches target) := by
              rw [hfp, hw.1, hw.2]
              exact List.mem_cons_self v []
            exact ⟨v, List.mem_of_mem_filter hv, List.of_mem_filter hv⟩
          rw [List.map_cons, get_global_priority_varset_id, hfind, List.findIdx_cons, hany]
          simp

theorem locator_no_match {target : String} :
    ∀ pages : List VarsetPage,
      (pagesData pages).filter (varsetMatches target) = [] →
      (get_global_priority_varset_id target (pages.map PageResp.ok)).1 = none := by
  intro pages
  induction pages with
  | nil =>
      intro _
      rfl
  | cons p rest ih =>
      intro hf
      rw [pagesData, List.filter_append] at hf
      rcases List.append_eq_nil.mp hf with ⟨hfp, hfr⟩
      have hfind : p.data.find? (varsetMatches target) = none := find?_of_filter_nil hfp
      rw [List.map_cons, get_global_priority_varset_id, hfind]
      cases hnx : p.hasNext
      · simp
      · simpa using ih hfr

theorem locator_fail {target : String} :
    ∀ (pages : List VarsetPage) (rest : List PageResp),
      (∀ p ∈ pages, p.hasNext = true ∧ p.data.filter (varsetMatches target) = []) →
      (get_global_priority_varset_id target
          (pages.map PageResp.ok ++ PageResp.exc :: rest)).1 = none := by
  intro pages
  induction pages with
  | nil =>
      intro rest _
      rfl
  | cons p ps ih =>
      intro rest hprop
      have hp := hprop p (List.mem_cons_self p ps)
      have hfind : p.data.find? (varsetMatches target) = none := find?_of_filter_nil hp.2
      rw [List.map_cons, List.cons_append, get_global_priority_varset_id, hfind, hp.1]
      simpa using ih rest (fun q hq => hprop q (List.mem_cons_of_mem p hq))

/-- Claim C6 (confirmed): for a tenant whose varset pages contain exactly one
varset matching name = target, global = true and priority = true, the
locator returns that varset's id whatever its position, requesting exactly
the pages up to and including the one containing the match; it returns none
when no varset matches (in particular when there are none at all), and it
returns none when a request failure interrupts the scan. -/
theorem claim_C6_locator_correct (target : String) :
    (∀ (pages : List VarsetPage) (v : Varset),
      (∀ p ∈ pages.dropLast, p.hasNext = true) →
      (pagesData pages).filter (varsetMatches target) = [v] →
      get_global_priority_varset_id target (pages.map PageResp.ok) =
        (some v.id, pages.findIdx (fun p => p.data.any (varsetMatches target)) + 1)) ∧
    (∀ pages : List VarsetPage,
      (pagesData pages).filter (varsetMatches target) = [] →
      (get_global_priority_varset_id target (pages.map PageResp.ok)).1 = none) ∧
    (∀ (pages : List VarsetPage) (rest : List PageResp),
      (∀ p ∈ pages, p.hasNext = true ∧ p.data.filter (varsetMatches target) = []) →
      (get_global_priority_varset_id target
          (pages.map PageResp.ok ++ PageResp.exc :: rest)).1 = none) :=
  ⟨locator_finds, locator_no_match, locator_fail⟩

/-- A varset that fails the name predicate. -/
def c6Other1 : Varset :=
  { id := "vs1", name := some "other", glob := some true, priority := some true }

/-- A varset that fails the global predicate. -/
def c6Other2 : Varset :=
  { id := "vs2", name := some "gp", glob := some false, priority := some true }

/-- The unique fully matching varset. -/
def c6Match : Varset :=
  { id := "vs3", name := some "gp", glob := some true, priority := some true }

/-- Two pages, the unique match sitting on the second page. -/
def c6Pages : List VarsetPage :=
  [{ data := [c6Other1], hasNext := true },
   { data := [c6Other2, c6Match], hasNext := false }]

/-- A single empty page (a tenant with no varsets at all). -/
def c6EmptyPages : List VarsetPage := [{ data := [], hasNext := false }]

/-- A matchless first page before a request failure. -/
def c6FailPages : List VarsetPage := [{ data := [c6Other1], hasNext := true }]

/-- Witness for C6 at concrete pages: the match on page two is found with
two page requests, an empty tenant yields none, and a failure after a
matchless page yields none. -/
theorem claim_C6_witness :
    get_global_priority_varset_id "gp" (c6Pages.map PageResp.ok) =
        (some c6Match.id, c6Pages.findIdx (fun p => p.data.any (varsetMatches "gp")) + 1) ∧
      (get_global_priority_varset_id "gp" (c6EmptyPages.map PageResp.ok)).1 = none ∧
      (get_global_priority_varset_id "gp"
          (c6FailPages.map PageResp.ok ++ PageResp.exc :: [])).1 = none :=
  ⟨(claim_C6_locator_correct "gp").1 c6Pages c6Match (by decide) (by decide),
    (claim_C6_locator_correct "gp").2.1 c6EmptyPages (by decide),
    (claim_C6_locator_correct "gp").2.2 c6FailPages [] (by decide)⟩

/-! ## Lemmas about the organization lister -/

/-- All organizations of a sequence of good pages, in order. -/
def joinOrgs : List (List String) → List String
  | [] => []
  | g :: rest => g ++ joinOrgs rest

theorem list_orgs_serverPages (P : Nat) (hP : 0 < P) :
    ∀ (n : Nat) (items : List String), items.length ≤ n → items ≠ [] →
      list_orgs (serverPages P items) = (items, (items.length + P - 1) / P) := by
  intro n
  induction n with
  | zero =>
      intro items hlen hne
      rcases items with _ | ⟨a, rest⟩
      · exact absurd rfl hne
      · simp at hlen
  | succ n ih =>
      intro items hlen hne
      have hP0 : P ≠ 0 := Nat.pos_iff_ne_zero.mp hP
      have hcond : ¬(P = 0 ∨ items = []) := by
        push_neg
        exact ⟨hP0, hne⟩
      have hpos : 0 < items.length := List.length_pos.mpr hne
      have htake_ne : items.take P ≠ [] := by
        rw [Ne, List.take_eq_nil_iff]
        push_neg
        exact ⟨hP0, hne⟩
      have htake : (items.take P).isEmpty = false := by
        cases h : (items.take P).isEmpty
        · rfl
        · exact absurd (List.isEmpty_iff.mp h) htake_ne
      rw [serverPages, dif_neg hcond]
      by_cases hdrop : items.drop P = []
      · have hlenP : items.length ≤ P := List.drop_eq_nil_iff.mp hdrop
        have hdiv : (items.length + P - 1) / P = 1 :=
          Nat.div_eq_of_lt_le (by omega) (by omega)
        have hnx : decide (items.drop P ≠ []) = false := by simp [hdrop]
        simp only [list_orgs, htake, hnx]
        simp [hdiv, List.take_of_length_le hlenP]
      · have hgt : P < items.length := by
          by_contra hle
          push_neg at hle
          exact hdrop (List.drop_eq_nil_iff.mpr hle)
        have hlen2 : (items.drop P).length ≤ n := by
          rw [List.length_drop]
          omega
        have hrec := ih (items.drop P) hlen2 hdrop
        have hnx : decide (items.drop P ≠ []) = true := by simp [hdrop]
        have hcount : (items.length - P + P - 1) / P + 1 = (items.length + P - 1) / P := by
          have h1 : items.length - P + P - 1 = items.length - 1 := by omega
          have h2 : items.length + P - 1 = items.length - 1 + P := by omega
          rw [h1, h2, Nat.add_div_right _ hP]
        simp only [list_orgs, htake, hnx, hrec]
        simp [hcount, List.take_append_drop]

theorem list_orgs_fail :
    ∀ (good : List (List String)) (rest : List OrgPageResp),
      (∀ g ∈ good, g ≠ []) →
      (list_orgs (good.map (fun g => OrgPageResp.ok g true) ++ OrgPageResp.exc :: rest)).1 =
        joinOrgs good := by
  intro good
  induction good with
  | nil =>
      intro rest _
      rfl
  | cons g gs ih =>
      intro rest hne
      have hg : g ≠ [] := hne g (List.mem_cons_self g gs)
      have hge : g.isEmpty = false := by
        cases h : g.isEmpty
        · rfl
        · exact absurd (List.isEmpty_iff.mp h) hg
      simp only [List.map_cons, List.cons_append, list_orgs, hge, joinOrgs]
      simp [ih rest (fun q hq => hne q (List.mem_cons_of_mem g hq))]

/-- Claim C7, counterexample: an empty collection is served as one empty
page; list_orgs still makes one page request, although the claimed count is
ceil(0/P) = 0 (with P = 5 here).  "Exactly ceil(N/P) page requests or
fewer" is therefore violated at N = 0. -/
theorem claim_C7_counterexample :
    (list_orgs (serverEnv 5 [])).2 = 1 ∧
      (([] : List String).length + 5 - 1) / 5 = 0 := by decide

/-- Claim C7 (corrected): against a faithful paginated server (pages of
size P in order, next link present exactly while items remain), for a
NONEMPTY collection list_orgs terminates after exactly ceil(N/P) = 
(N + P - 1) / P page requests and returns all N items in their original
order; for an empty collection it makes one request (not zero) and returns
no items; and when a request fails mid-listing after a run of good pages it
returns exactly the items accumulated so far. -/
theorem claim_C7_lister_correct (P : Nat) :
    (∀ items : List String, 0 < P → items ≠ [] →
      list_orgs (serverEnv P items) = (items, (items.length + P - 1) / P)) ∧
    (∀ items : List String, items = [] → list_orgs (serverEnv P items) = ([], 1)) ∧
    (∀ (good : List (List String)) (rest : List OrgPageResp),
      (∀ g ∈ good, g ≠ []) →
      (list_orgs (good.map (fun g => OrgPageResp.ok g true) ++ OrgPageResp.exc :: rest)).1 =
        joinOrgs good) := by
  refine ⟨?_, ?_, list_orgs_fail⟩
  · intro items hP hne
    have hie : ¬(items.isEmpty = true) := by
      rw [List.isEmpty_iff]
      exact hne
    rw [serverEnv, if_neg hie]
    exact list_orgs_serverPages P hP items.length items le_rfl hne
  · intro items he
    subst he
    rfl

/-- Witness for the corrected C7: three items in pages of two are all
returned in two requests, and a failure after one good page returns that
page's items. -/
theorem claim_C7_witness :
    list_orgs (serverEnv 2 ["o1", "o2", "o3"]) =
        (["o1", "o2", "o3"], ((["o1", "o2", "o3"] : List String).length + 2 - 1) / 2) ∧
      (list_orgs ([["o1"]].map (fun g => OrgPageResp.ok g true) ++
          OrgPageResp.exc :: [])).1 = joinOrgs [["o1"]] :=
  ⟨(claim_C7_lister_correct 2).1 ["o1", "o2", "o3"] (by decide) (by decide),
    (claim_C7_lister_correct 2).2.2 [["o1"]] [] (by decide)⟩

theorem runRetry_le (fl : List Nat) :
    ∀ (resps : List Nat) (r : Nat), (runRetry fl r resps).1 ≤ r + 1 := by
  intro resps
  induction resps with
  | nil =>
      intro r
      simp [runRetry]
  | cons s rest ih =>
      intro r
      by_cases h : s ∈ fl
      · cases r with
        | zero => simp [runRetry, h]
        | succ r2 =>
            simp only [runRetry, if_pos h]
            have := ih r2
            omega
      · unfold runRetry
        simp [h]

/-- Claim C8, counterexample: urllib3 interprets total=6 as six RETRIES on
top of the initial request.  Against a server answering 503 on every
attempt, the session built by get_requests_session_with_retries sends 7
requests — more than the claimed "at most 6 attempts in total". -/
theorem claim_C8_counterexample :
    (runRetry get_requests_session_with_retries.status_forcelist
        get_requests_session_with_retries.total (List.replicate 7 503)).1 = 7 := by decide

/-- Claim C8 (corrected): the session retries on the statuses
{429, 500, 502, 503, 504} and on connection/read failures (connect = read =
6), with exponential backoff factor 2 and raise_on_status disabled, and it
makes at most 7 attempts in total: one initial request plus at most
total = 6 retries (not "6 attempts in total").  A response whose status is
in the forcelist is retried while retries remain; any other 4xx status is
delivered immediately without a retry; and when retries are exhausted the
last response is returned rather than raised. -/
theorem claim_C8_retry_policy :
    get_requests_session_with_retries.status_forcelist = [429, 500, 502, 503, 504] ∧
      get_requests_session_with_retries.total = 6 ∧
      get_requests_session_with_retries.connect = 6 ∧
      get_requests_session_with_retries.read = 6 ∧
      get_requests_session_with_retries.backoff_factor = 2 ∧
      get_requests_session_with_retries.raise_on_status = false ∧
      (∀ resps : List Nat,
        (runRetry get_requests_session_with_retries.status_forcelist
            get_requests_session_with_retries.total resps).1 ≤ 7) ∧
      (∀ (s : Nat) (rest : List Nat) (r : Nat),
        s ∈ get_requests_session_with_retries.status_forcelist →
        runRetry get_requests_session_with_retries.status_forcelist (r + 1) (s :: rest) =
          ((runRetry get_requests_session_with_retries.status_forcelist r rest).1 + 1,
            (runRetry get_requests_session_with_retries.status_forcelist r rest).2)) ∧
      (∀ (s : Nat) (rest : List Nat) (r : Nat), 400 ≤ s → s < 500 → s ≠ 429 →
        runRetry get_requests_session_with_retries.status_forcelist r (s :: rest) =
          (1, some s)) ∧
      (∀ (s : Nat) (rest : List Nat),
        runRetry get_requests_session_with_retries.status_forcelist 0 (s :: rest) =
          (1, some s)) := by
  refine ⟨rfl, rfl, rfl, rfl, rfl, rfl, ?_, ?_, ?_, ?_⟩
  · intro resps
    exact runRetry_le _ resps 6
  · intro s rest r h
    simp [runRetry, h]
  · intro s rest r h1 h2 h3
    have hmem : s ∉ get_requests_session_with_retries.status_forcelist := by
      intro hmem
      simp [get_requests_session_with_retries] at hmem
      omega
    unfold runRetry
    simp [hmem]
  · intro s rest
    by_cases h : s ∈ get_requests_session_with_retries.status_forcelist <;>
      simp [runRetry, h]

/-- Witness for the corrected C8 at concrete statuses: 404 is delivered
without a retry, an exhausted 503 is delivered rather than raised, nine
persistent 503s cost at most 7 requests, and a 429 with retries left causes
exactly one more request. -/
theorem claim_C8_witness :
    runRetry get_requests_session_with_retries.status_forcelist 3 (404 :: [500]) =
        (1, some 404) ∧
      runRetry get_requests_session_with_retries.status_forcelist 0 (503 :: []) =
        (1, some 503) ∧
      (runRetry get_requests_session_with_retries.status_forcelist
          get_requests_session_with_retries.total (List.replicate 9 503)).1 ≤ 7 ∧
      runRetry get_requests_session_with_retries.status_forcelist 6 (429 :: [200]) =
        ((runRetry get_requests_session_with_retries.status_forcelist 5 [200]).1 + 1,
          (runRetry get_requests_session_with_retries.status_forcelist 5 [200]).2) :=
  ⟨claim_C8_retry_policy.2.2.2.2.2.2.2.2.1 404 [500] 3 (by decide) (by decide) (by decide),
    claim_C8_retry_policy.2.2.2.2.2.2.2.2.2 503 [],
    claim_C8_retry_policy.2.2.2.2.2.2.1 (List.replicate 9 503),
    claim_C8_retry_policy.2.2.2.2.2.2.2.1 429 [200] 5 (by decide)⟩

/-! ## Dry-run and create-mode trace lemmas -/

theorem varActionTrace_dry (env : OrgEnv) (a : VarAction) :
    varActionTrace env true a = [Ev.log] ∨
      varActionTrace env true a = [Ev.log, Ev.report "update_variable" "skipped"] := by
  cases a <;> simp [varActionTrace, add_variable, update_variable, delete_variable]

theorem traceAll_dry_mem {env : OrgEnv} {e : Ev} :
    ∀ {plan : List VarAction}, e ∈ traceAll env true plan →
      e = Ev.log ∨ e = Ev.report "update_variable" "skipped" := by
  intro plan
  induction plan with
  | nil =>
      intro he
      cases he
  | cons a rest ih =>
      intro he
      rw [traceAll, List.mem_append] at he
      rcases he with he | he
      · rcases varActionTrace_dry env a with ha | ha <;> rw [ha] at he <;> simp at he
        · exact Or.inl he
        · rcases he with he | he
          · exact Or.inl he
          · exact Or.inr he
      · exact ih he

theorem dry_run_events {target : String} {env : OrgEnv} {mode : Mode} {D : List DesiredVar} :
    ∀ e ∈ process_org target env mode true D,
      e = Ev.log ∨ e = Ev.get ∨ e = Ev.report "update_varset" "error" ∨
        e = Ev.report "delete_varset" "error" ∨ e = Ev.report "update_variable" "skipped" := by
  intro e he
  cases mode with
  | create =>
      simp only [process_org] at he
      rcases List.mem_cons.mp he with he | he
      · exact Or.inl he
      · cases hr : (get_global_priority_varset_id target env.pages).1 with
        | none =>
            simp [create_global_priority_varset, hr, List.mem_replicate] at he
            rcases he with he | he | he
            · exact Or.inr (Or.inl he.2)
            · exact Or.inl he
            · exact Or.inl he.2
        | some i =>
            simp [create_global_priority_varset, hr, List.mem_replicate] at he
            rcases he with he | he
            · exact Or.inr (Or.inl he.2)
            · exact Or.inl he
  | update =>
      simp only [process_org] at he
      rcases List.mem_cons.mp he with he | he
      · exact Or.inl he
      · cases hr : (get_global_priority_varset_id target env.pages).1 with
        | none =>
            simp [update_global_priority_varset, hr, List.mem_replicate] at he
            rcases he with he | he | he
            · exact Or.inr (Or.inl he.2)
            · exact Or.inl he
            · exact Or.inr (Or.inr (Or.inl he))
        | some i =>
            simp [update_global_priority_varset, hr, check_diffs_trace,
              List.mem_replicate] at he
            rcases he with he | he | he
            · exact Or.inr (Or.inl he.2)
            · exact Or.inr (Or.inl he)
            · rcases traceAll_dry_mem he with he | he
              · exact Or.inl he
              · exact Or.inr (Or.inr (Or.inr (Or.inr he)))
  | delete =>
      simp only [process_org] at he
      rcases List.mem_cons.mp he with he | he
      · exact Or.inl he
      · cases hr : (get_global_priority_varset_id target env.pages).1 with
        | none =>
            simp [delete_global_priority_varset, hr, List.mem_replicate] at he
            rcases he with he | he | he
            · exact Or.inr (Or.inl he.2)
            · exact Or.inl he
            · exact Or.inr (Or.inr (Or.inr (Or.inl he)))
        | some i =>
            simp [delete_global_priority_varset, hr, List.mem_replicate] at he
            rcases he with he | he
            · exact Or.inr (Or.inl he.2)
            · exact Or.inl he

/-- An environment whose tenant has no varsets at all (the locator finds
nothing) and whose live responses would all fail. -/
def c4EnvNotFound : OrgEnv :=
  { pages := [PageResp.ok { data := [], hasNext := false }]
    varsResp := some []
    createResp := CreateResp.exc
    addR := fun _ => VarResp.exc
    updR := fun _ => VarResp.exc
    delR := fun _ => VarResp.exc
    delVarsetR := VarResp.exc }

/-- An environment whose tenant has the matching varset and one current
variable identical to c1Desired. -/
def c4EnvFound : OrgEnv :=
  { pages := [PageResp.ok { data := [c6Match], hasNext := false }]
    varsResp := some [c1Current]
    createResp := CreateResp.exc
    addR := fun _ => VarResp.exc
    updR := fun _ => VarResp.exc
    delR := fun _ => VarResp.exc
    delVarsetR := VarResp.exc }

/-- Claim C4, counterexample: a dry-run invocation does append report rows.
In delete mode against a tenant without the varset, the not-found error row
is recorded before the dry-run check; in update mode against a tenant whose
variable needs no change, the skipped row of the unchanged-variable branch
is recorded even under dry run. -/
theorem claim_C4_counterexample :
    Ev.report "delete_varset" "error" ∈ process_org "gp" c4EnvNotFound Mode.delete true [] ∧
      Ev.report "update_variable" "skipped" ∈
        process_org "gp" c4EnvFound Mode.update true [c1Desired] := by decide

/-- Claim C4 (corrected): a dry-run invocation performs zero mutating HTTP
requests (no POST, PATCH or DELETE) in every mode and for every
environment; it is not record-free, however: the only report rows it can
append are the varset-not-found error rows of update and delete mode
(recorded before the dry-run check) and the skipped rows of the
unchanged-variable branch (recorded regardless of dry run).  Everything
else it does is GET requests and log output. -/
theorem claim_C4_dry_run_no_mutation (target : String) (env : OrgEnv) (mode : Mode)
    (D : List DesiredVar) :
    (process_org target env mode true D).all (fun e => !e.isMutation) = true ∧
      (process_org target env mode true D).all
        (fun e => !e.isReport ||
          (e == Ev.report "update_varset" "error" || e == Ev.report "delete_varset" "error" ||
            e == Ev.report "update_variable" "skipped")) = true := by
  constructor
  · rw [List.all_eq_true]
    intro e he
    rcases dry_run_events e he with h | h | h | h | h <;> subst h <;> rfl
  · rw [List.all_eq_true]
    intro e he
    rcases dry_run_events e he with h | h | h | h | h <;> subst h <;> rfl

/-- Whether a create response is neither a 201 nor the benign
"Name has already been taken" conflict. -/
def CreateResp.isOtherError : CreateResp → Bool
  | CreateResp.created _ => false
  | CreateResp.invalid d => !(d == "Name has already been taken")
  | CreateResp.other _ => true
  | CreateResp.exc => true

theorem add_variable_filter_post (resp : VarResp) (k : String) :
    (add_variable false resp k).filter Ev.isPostVar = [Ev.postVar k] := by
  cases resp with
  | ok s => by_cases h : s = 201 <;> simp [add_variable, h, Ev.isPostVar]
  | exc => simp [add_variable, Ev.isPostVar]

theorem traceAll_adds_filter_post (env : OrgEnv) (D : List DesiredVar) :
    (traceAll env false (D.map (fun d => VarAction.add d.key))).filter Ev.isPostVar =
      D.map (fun d => Ev.postVar d.key) := by
  induction D with
  | nil => rfl
  | cons d rest ih =>
      rw [List.map_cons, traceAll, List.filter_append, ih]
      rw [varActionTrace, add_variable_filter_post]
      rfl

/-- Claim C5 (confirmed): in create mode (live), a 422 whose detail is
"Name has already been taken" yields exactly one skipped report row and no
add_variable POST; a 201 yields one add_variable POST per desired entry, in
order; any other outcome (a different 422 detail, another status, or a
request exception) yields exactly one error report row and no add_variable
POST. -/
theorem claim_C5_create_status_mapping (target : String) :
    (∀ (env : OrgEnv) (D : List DesiredVar),
      env.createResp = CreateResp.invalid "Name has already been taken" →
      (create_global_priority_varset target env false D).filter Ev.isReport =
          [Ev.report "create_varset" "skipped"] ∧
        (create_global_priority_varset target env false D).filter Ev.isPostVar = []) ∧
      (∀ (env : OrgEnv) (D : List DesiredVar) (i : String),
        env.createResp = CreateResp.created i →
        (create_global_priority_varset target env false D).filter Ev.isPostVar =
          D.map (fun d => Ev.postVar d.key)) ∧
      (∀ (env : OrgEnv) (D : List DesiredVar),
        CreateResp.isOtherError env.createResp = true →
        (create_global_priority_varset target env false D).filter Ev.isReport =
            [Ev.report "create_varset" "error"] ∧
          (create_global_priority_varset target env false D).filter Ev.isPostVar = []) := by
  refine ⟨?_, ?_, ?_⟩
  · intro env D hresp
    constructor <;> simp [create_global_priority_varset, hresp, Ev.isReport, Ev.isPostVar]
  · intro env D i hresp
    simp [create_global_priority_varset, hresp, Ev.isReport, Ev.isPostVar,
      traceAll_adds_filter_post]
  · intro env D hresp
    cases hc : env.createResp with
    | created i =>
        rw [hc] at hresp
        cases hresp
    | invalid d =>
        rw [hc] at hresp
        have hd : ¬(d = "Name has already been taken") := by
          simpa [CreateResp.isOtherError] using hresp
        constructor <;>
          simp [create_global_priority_varset, hc, hd, Ev.isReport, Ev.isPostVar]
    | other s =>
        constructor <;>
          simp [create_global_priority_varset, hc, Ev.isReport, Ev.isPostVar]
    | exc =>
        constructor <;>
          simp [create_global_priority_varset, hc, Ev.isReport, Ev.isPostVar]

/-- The not-found environment with the benign conflict response. -/
def c5EnvConflict : OrgEnv :=
  { c4EnvNotFound with createResp := CreateResp.invalid "Name has already been taken" }

/-- The not-found environment with a successful creation response. -/
def c5EnvCreated : OrgEnv :=
  { c4EnvNotFound with
      createResp := CreateResp.created "vs9"
      addR := fun _ => VarResp.ok 201 }

/-- The not-found environment with a 500 creation response. -/
def c5EnvError : OrgEnv :=
  { c4EnvNotFound with createResp := CreateResp.other 500 }

/-- Witness for C5 at one desired entry: the conflict yields one skipped
row and no add POST, the created response yields one add POST for the
entry, and the 500 yields one error row. -/
theorem claim_C5_witness :
    (create_global_priority_varset "gp" c5EnvConflict false [c1AddDesired]).filter
        Ev.isReport = [Ev.report "create_varset" "skipped"] ∧
      (create_global_priority_varset "gp" c5EnvConflict false [c1AddDesired]).filter
        Ev.isPostVar = [] ∧
      (create_global_priority_varset "gp" c5EnvCreated false [c1AddDesired]).filter
        Ev.isPostVar = [c1AddDesired].map (fun d => Ev.postVar d.key) ∧
      (create_global_priority_varset "gp" c5EnvError false [c1AddDesired]).filter
        Ev.isReport = [Ev.report "create_varset" "error"] :=
  ⟨((claim_C5_create_status_mapping "gp").1 c5EnvConflict [c1AddDesired] rfl).1,
    ((claim_C5_create_status_mapping "gp").1 c5EnvConflict [c1AddDesired] rfl).2,
    (claim_C5_create_status_mapping "gp").2.1 c5EnvCreated [c1AddDesired] "vs9" rfl,
    ((claim_C5_create_status_mapping "gp").2.2 c5EnvError [c1AddDesired] (by decide)).1⟩
